import Mathlib

/-!
Verification of the scope price-oracle repository: a shallow embedding of
the stake-pool ratio adapter (`src/programs/scope/src/oracles/spl_stake.rs`),
the `update_mapping` handler
(`src/programs/scope/src/handlers/handler_update_mapping.rs`) and the
off-chain crank client (`src/off_chain/crank/src/scope_client.rs`), together
with theorems settling the specification's claims about them.

Machine integers are embedded as `Nat` with explicit `2^64` / `2^128` bounds
where the Rust code uses checked arithmetic; fallible Rust functions return
`Option` or `Except`.
-/

namespace Scope

/-- Error type of the on-chain program. `UnexpectedAccount`, `PriceNotValid`
and `MathOverflow` come from the `ScopeError` enum used by the source files;
`ConstraintViolation` stands for the error Anchor raises when an
`#[account(constraint = ...)]` attribute on the instruction's accounts fails
(before the handler body runs). -/
inductive ScopeError where
  | UnexpectedAccount
  | PriceNotValid
  | MathOverflow
  | ConstraintViolation
  deriving DecidableEq, Repr

/-! ## Stake-pool ratio adapter (`oracles/spl_stake.rs`) -/

/-- The fields of the SPL `StakePool` account state read by
`calc_lamports_withdraw_amount` and the adapter's freshness check
(`total_lamports`, `pool_token_supply`, `last_update_epoch`, all `u64`).
The remaining fields of the Rust struct (authorities, fees, lockup, ...) are
never read by the code under verification and are omitted. -/
structure StakePool where
  total_lamports : Nat
  pool_token_supply : Nat
  last_update_epoch : Nat
  deriving DecidableEq, Repr

/-- A `StakePool` whose numeric fields fit in `u64`, as guaranteed by the
Borsh deserialization of the account. -/
def StakePool.wf (sp : StakePool) : Prop :=
  sp.total_lamports < 2 ^ 64 ∧ sp.pool_token_supply < 2 ^ 64

instance (sp : StakePool) : Decidable sp.wf := by
  unfold StakePool.wf; infer_instance

/-- `u128::checked_mul`: the product, or `none` on overflow past `2^128`. -/
def checked_mul_u128 (a b : Nat) : Option Nat :=
  if a * b < 2 ^ 128 then some (a * b) else none

/-- `u128::checked_div`: `none` exactly when the divisor is zero. -/
def checked_div_u128 (a b : Nat) : Option Nat :=
  if b = 0 then none else some (a / b)

/-- `u64::try_from(n : u128).ok()`: `some n` when `n` fits in 64 bits. -/
def u64_try_from (n : Nat) : Option Nat :=
  if n < 2 ^ 64 then some n else none

/-- `StakePool::calc_lamports_withdraw_amount`: wide (128-bit) product of
`pool_tokens` and `total_lamports`; a numerator below one denominator unit,
or a zero denominator, yields `some 0`; otherwise the quotient narrowed back
to `u64`, with `none` on any overflow. -/
def StakePool.calc_lamports_withdraw_amount (sp : StakePool) (pool_tokens : Nat) :
    Option Nat :=
  match checked_mul_u128 pool_tokens sp.total_lamports with
  | none => none
  | some numerator =>
    let denominator := sp.pool_token_supply
    if numerator < denominator ∨ denominator = 0 then
      some 0
    else
      match checked_div_u128 numerator denominator with
      | none => none
      | some q => u64_try_from q

/-- `DECIMALS = 15`, the fixed-point scale of the adapter. -/
def DECIMALS : Nat := 15

/-- `FACTOR = 10^15`, the fixed-point unit passed to
`calc_lamports_withdraw_amount` by `scaled_rate`. -/
def FACTOR : Nat := 10 ^ DECIMALS

/-- `scaled_rate`: the pool's lamports-per-token ratio scaled by `10^15`;
`None` from the checked arithmetic surfaces as `MathOverflow`. -/
def scaled_rate (stake_pool : StakePool) : Except ScopeError Nat :=
  match stake_pool.calc_lamports_withdraw_amount FACTOR with
  | some v => Except.ok v
  | none => Except.error ScopeError.MathOverflow

/-- Fixed-point price: integer magnitude plus power-of-ten exponent. -/
structure Price where
  value : Nat
  exp : Nat
  deriving DecidableEq, Repr

/-- Normalized dated price written to the price store. -/
structure DatedPrice where
  price : Price
  last_updated_slot : Nat
  unix_timestamp : Nat
  deriving DecidableEq, Repr

/-- The clock fields read by the adapter (`slot`, `epoch`,
`epoch_start_timestamp`, `unix_timestamp`). The code casts the two `i64`
timestamps to `u64` before use; the fields here hold those cast values. -/
structure Clock where
  slot : Nat
  epoch_start_timestamp : Nat
  epoch : Nat
  unix_timestamp : Nat
  deriving DecidableEq, Repr

/-- Modelled from the spec: the helper `crate::utils::hours_since_timestamp`
is not among the provided source files. The spec's staleness policy reads
"unrefreshed for ≥1 hour past the current epoch boundary", so the helper is
the count of whole hours elapsed from `timestamp` to `unix_timestamp`
(saturating at zero when the clock is earlier). -/
def hours_since_timestamp (unix_timestamp timestamp : Nat) : Nat :=
  (unix_timestamp - timestamp) / 3600

/-- `get_price` of the stake-pool adapter, after the Borsh deserialization of
the account (a deserialization failure is `UnexpectedAccount` and is outside
this model): reject as `PriceNotValid` any pool not refreshed in the current
epoch once one hour of the epoch has elapsed, otherwise price the pool via
`scaled_rate`. Compiled without the `skip_price_validation` and `localnet`
features, so the freshness check is active. -/
def get_price (stake_pool : StakePool) (current_clock : Clock) :
    Except ScopeError DatedPrice :=
  let hours_since_epoch_started :=
    hours_since_timestamp current_clock.unix_timestamp
      current_clock.epoch_start_timestamp
  if stake_pool.last_update_epoch ≠ current_clock.epoch ∧
      1 ≤ hours_since_epoch_started then
    Except.error ScopeError.PriceNotValid
  else
    match scaled_rate stake_pool with
    | Except.error e => Except.error e
    | Except.ok value =>
      Except.ok
        { price := { value := value, exp := DECIMALS }
          last_updated_slot := current_clock.slot
          unix_timestamp := current_clock.unix_timestamp }

end Scope

namespace Scope

deriving instance DecidableEq for Except

/-- Helper: characterization of `calc_lamports_withdraw_amount` when the wide
product does not overflow `u128`. -/
theorem calc_lamports_eq (sp : StakePool) (pool_tokens : Nat)
    (h : pool_tokens * sp.total_lamports < 2 ^ 128) :
    sp.calc_lamports_withdraw_amount pool_tokens =
      if pool_tokens * sp.total_lamports < sp.pool_token_supply ∨
          sp.pool_token_supply = 0 then
        some 0
      else if pool_tokens * sp.total_lamports / sp.pool_token_supply < 2 ^ 64 then
        some (pool_tokens * sp.total_lamports / sp.pool_token_supply)
      else
        none := by
  unfold StakePool.calc_lamports_withdraw_amount checked_mul_u128 checked_div_u128 u64_try_from
  rw [if_pos h]
  dsimp only
  by_cases hz : pool_tokens * sp.total_lamports < sp.pool_token_supply ∨ sp.pool_token_supply = 0
  · rw [if_pos hz, if_pos hz]
  · have hz2 : ¬ sp.pool_token_supply = 0 := fun h0 => hz (Or.inr h0)
    rw [if_neg hz, if_neg hz, if_neg hz2]

/-- C1: for every well-formed `StakePool`, `scaled_rate` returns the
fixed-point ratio `total_lamports / pool_token_supply` scaled by `10^15`:
exactly `0` (never an error) when the supply is zero or the wide numerator
`FACTOR * total_lamports` is smaller than the supply, the exact scaled
quotient when it fits in 64 bits, and the `MathOverflow` error otherwise
(the wide `u128` multiplication itself cannot overflow for `u64` fields, so
every `None` of the checked arithmetic is covered by this characterization).
The spec's concrete instances (`100000/100000 ↦ 10^15`,
`100000/200000 ↦ 5*10^14`) follow; see the witness. -/
theorem claim_C1_scaled_rate (sp : StakePool) (hwf : sp.wf) :
    scaled_rate sp =
      if FACTOR * sp.total_lamports < sp.pool_token_supply ∨
          sp.pool_token_supply = 0 then
        Except.ok 0
      else if FACTOR * sp.total_lamports / sp.pool_token_supply < 2 ^ 64 then
        Except.ok (FACTOR * sp.total_lamports / sp.pool_token_supply)
      else
        Except.error ScopeError.MathOverflow := by
  obtain ⟨hl, hs⟩ := hwf
  have hmul : FACTOR * sp.total_lamports < 2 ^ 128 := by
    calc FACTOR * sp.total_lamports ≤ FACTOR * (2 ^ 64 - 1) :=
          Nat.mul_le_mul_left _ (by omega)
      _ < 2 ^ 128 := by norm_num [FACTOR, DECIMALS]
  unfold scaled_rate
  rw [calc_lamports_eq sp FACTOR hmul]
  by_cases hz : FACTOR * sp.total_lamports < sp.pool_token_supply ∨ sp.pool_token_supply = 0
  · rw [if_pos hz, if_pos hz]
  · rw [if_neg hz, if_neg hz]
    by_cases hq : FACTOR * sp.total_lamports / sp.pool_token_supply < 2 ^ 64
    · rw [if_pos hq, if_pos hq]
    · rw [if_neg hq, if_neg hq]

/-- Witness for C1: the characterization evaluated at the spec's concrete
ratio examples, at a zero supply, and at a quotient overflowing `u64`. -/
theorem claim_C1_witness :
    scaled_rate { total_lamports := 100000, pool_token_supply := 100000, last_update_epoch := 0 } = Except.ok (10 ^ 15) ∧
    scaled_rate { total_lamports := 100000, pool_token_supply := 200000, last_update_epoch := 0 } = Except.ok (5 * 10 ^ 14) ∧
    scaled_rate { total_lamports := 7, pool_token_supply := 0, last_update_epoch := 0 } = Except.ok 0 ∧
    scaled_rate { total_lamports := 2 ^ 64 - 1, pool_token_supply := 1, last_update_epoch := 0 } = Except.error ScopeError.MathOverflow := by
  refine ⟨?_, ?_, ?_, ?_⟩
  · exact (claim_C1_scaled_rate _ (by decide)).trans (by decide)
  · exact (claim_C1_scaled_rate _ (by decide)).trans (by decide)
  · exact (claim_C1_scaled_rate _ (by decide)).trans (by decide)
  · exact (claim_C1_scaled_rate _ (by decide)).trans (by decide)

/-- Helper: `scaled_rate` never fails with `PriceNotValid` (its only error
is `MathOverflow`). -/
theorem scaled_rate_ne_price_not_valid (sp : StakePool) :
    scaled_rate sp ≠ Except.error ScopeError.PriceNotValid := by
  unfold scaled_rate
  cases sp.calc_lamports_withdraw_amount FACTOR <;> simp

/-- C2: the stake-pool adapter's `get_price` rejects a record with
`PriceNotValid` exactly when the record's `last_update_epoch` differs from
the clock's epoch and at least one hour (3600 seconds) has elapsed since the
epoch's start timestamp; a record refreshed this epoch, or read less than an
hour into the epoch, passes the freshness check. -/
theorem claim_C2_stake_freshness (sp : StakePool) (clock : Clock) :
    get_price sp clock = Except.error ScopeError.PriceNotValid ↔
      sp.last_update_epoch ≠ clock.epoch ∧
        3600 ≤ clock.unix_timestamp - clock.epoch_start_timestamp := by
  have hconv : 1 ≤ hours_since_timestamp clock.unix_timestamp clock.epoch_start_timestamp ↔
      3600 ≤ clock.unix_timestamp - clock.epoch_start_timestamp := by
    unfold hours_since_timestamp
    rw [Nat.le_div_iff_mul_le (by norm_num)]
  unfold get_price
  dsimp only
  by_cases hcond : sp.last_update_epoch ≠ clock.epoch ∧
      1 ≤ hours_since_timestamp clock.unix_timestamp clock.epoch_start_timestamp
  · rw [if_pos hcond]
    exact iff_of_true rfl ⟨hcond.1, hconv.mp hcond.2⟩
  · rw [if_neg hcond]
    cases hsr : scaled_rate sp with
    | ok v =>
      dsimp only
      exact iff_of_false (fun h => Except.noConfusion h)
        (fun hrhs => hcond ⟨hrhs.1, hconv.mpr hrhs.2⟩)
    | error e =>
      dsimp only
      exact iff_of_false
        (fun h => scaled_rate_ne_price_not_valid sp (Except.error.inj h ▸ hsr))
        (fun hrhs => hcond ⟨hrhs.1, hconv.mpr hrhs.2⟩)

end Scope

namespace Scope

/-! ## `update_mapping` handler (`handlers/handler_update_mapping.rs`) -/

/-- External account identifier (Solana `Pubkey`), embedded as `Nat`;
`Pubkey::default()` — the all-zero key, the mapping store's unset
sentinel — is embedded as `0`. -/
abbrev Pubkey := Nat

/-- Verdict of `pyth::validate_pyth_price` on the record behind a reference.
The validator itself is not among the provided source files (only its call
site is), so the handler is parametrized by an arbitrary validation function
and every theorem quantifies over it. -/
abbrev Validator := Pubkey → Except ScopeError Unit

/-- Body of the `update_mapping` handler (`process`): if the new reference
equals the slot's current entry, succeed immediately without touching the
store; otherwise validate the referenced external record and overwrite the
entry only on success. `price_info_accounts` is the mapping store's fixed
array, embedded as a list with the in-range precondition `h` (the Rust
indexing panics out of range). The result is the updated store. -/
def process (validate : Validator) (price_info_accounts : List Pubkey)
    (token : Nat) (new_price_pubkey : Pubkey)
    (h : token < price_info_accounts.length) : Except ScopeError (List Pubkey) :=
  let current_price_pubkey := price_info_accounts.get ⟨token, h⟩
  if new_price_pubkey = current_price_pubkey then
    Except.ok price_info_accounts
  else
    match validate new_price_pubkey with
    | Except.error e => Except.error e
    | Except.ok _ => Except.ok (price_info_accounts.set token new_price_pubkey)

/-- The accounts of the `UpdateOracleMapping` instruction, restricted to the
data its Anchor `constraint` attributes read: the signing `admin` key, the
program account's recorded program-data address, the `program_data` account's
key and upgrade-authority field, and the `pyth_price_info` key that becomes
the new reference. -/
structure UpdateOracleMappingAccounts where
  admin : Pubkey
  program_programdata_address : Option Pubkey
  program_data_key : Pubkey
  upgrade_authority_address : Option Pubkey
  pyth_price_info : Pubkey
  deriving DecidableEq, Repr

/-- The two `#[account(constraint = ...)]` checks of `UpdateOracleMapping`:
the program's program-data address must be the given `program_data` account,
and that account's upgrade authority must be the signing admin. -/
def updateOracleMappingConstraintsOk (a : UpdateOracleMappingAccounts) : Bool :=
  (a.program_programdata_address == some a.program_data_key) &&
  (a.upgrade_authority_address == some a.admin)

/-- The full `update_mapping` instruction: Anchor checks the account
constraints before the handler body runs; on failure the instruction errors
and the store is untouched. -/
def update_mapping (validate : Validator) (a : UpdateOracleMappingAccounts)
    (price_info_accounts : List Pubkey) (token : Nat)
    (h : token < price_info_accounts.length) : Except ScopeError (List Pubkey) :=
  if updateOracleMappingConstraintsOk a then
    process validate price_info_accounts token a.pyth_price_info h
  else
    Except.error ScopeError.ConstraintViolation

/-- C3: if the mapping store's entry at `token` already equals `r`, `process`
succeeds and returns the store unchanged, whatever the validator does; and a
second call with the same `r` after any successful call returns the first
call's result unchanged (idempotence). -/
theorem claim_C3_update_mapping_idempotent
    (validate : Validator) (mappings : List Pubkey) (token : Nat) (r : Pubkey)
    (h : token < mappings.length) :
    (mappings.get ⟨token, h⟩ = r →
      process validate mappings token r h = Except.ok mappings) ∧
    (∀ m' (h' : token < m'.length),
      process validate mappings token r h = Except.ok m' →
      process validate m' token r h' = Except.ok m') := by
  constructor
  · intro heq
    unfold process
    rw [if_pos heq.symm]
  · intro m' h' hrun
    unfold process at hrun ⊢
    by_cases hc : r = mappings.get ⟨token, h⟩
    · rw [if_pos hc] at hrun
      have hm : mappings = m' := Except.ok.inj hrun
      subst hm
      rw [if_pos hc]
    · rw [if_neg hc] at hrun
      cases hv : validate r with
      | error e => rw [hv] at hrun; exact absurd hrun (by simp)
      | ok u =>
        rw [hv] at hrun
        dsimp only at hrun
        have hm : mappings.set token r = m' := Except.ok.inj hrun
        subst hm
        have hg : (mappings.set token r).get ⟨token, h'⟩ = r := by simp
        rw [if_pos hg.symm]

/-- Witness for C3: both parts applied at a concrete store. -/
theorem claim_C3_witness :
    process (fun _ => Except.error ScopeError.PriceNotValid) [10, 20] 0 10
        (by decide) = Except.ok [10, 20] ∧
    process (fun _ => Except.ok ()) [7, 20] 0 7 (by decide) =
        Except.ok [7, 20] := by
  constructor
  · exact (claim_C3_update_mapping_idempotent _ [10, 20] 0 10 (by decide)).1 rfl
  · exact (claim_C3_update_mapping_idempotent (fun _ => Except.ok ()) [10, 20] 0 7
      (by decide)).2 [7, 20] (by decide) (by decide)

/-- C4: when the new reference differs from the current entry, `process`
validates the referenced record first: a failed validation propagates as the
call's error (so no new state is produced and the store keeps its prior
value), and only a successful validation overwrites the entry. -/
theorem claim_C4_update_mapping_fail_closed
    (validate : Validator) (mappings : List Pubkey) (token : Nat) (r : Pubkey)
    (h : token < mappings.length) (hne : mappings.get ⟨token, h⟩ ≠ r) :
    (∀ e, validate r = Except.error e →
      process validate mappings token r h = Except.error e) ∧
    (validate r = Except.ok () →
      process validate mappings token r h = Except.ok (mappings.set token r)) := by
  constructor
  · intro e hv
    unfold process
    rw [if_neg (fun hx => hne hx.symm), hv]
  · intro hv
    unfold process
    rw [if_neg (fun hx => hne hx.symm), hv]

/-- Witness for C4: a failing validator leaves the store unchanged with its
error surfaced; a succeeding one installs the new reference. -/
theorem claim_C4_witness :
    process (fun _ => Except.error ScopeError.UnexpectedAccount) [10, 20] 1 5
        (by decide) = Except.error ScopeError.UnexpectedAccount ∧
    process (fun _ => Except.ok ()) [10, 20] 1 5 (by decide) =
        Except.ok [10, 5] := by
  constructor
  · exact (claim_C4_update_mapping_fail_closed _ [10, 20] 1 5 (by decide)
      (by decide)).1 ScopeError.UnexpectedAccount rfl
  · exact ((claim_C4_update_mapping_fail_closed _ [10, 20] 1 5 (by decide)
      (by decide)).2 rfl).trans (by decide)

/-- C5: the `update_mapping` instruction is gated on the program's upgrade
authority: whenever the signing admin key is not the program-data account's
upgrade authority, the Anchor constraint fails, the call errors before the
handler body runs, and no store state is produced. -/
theorem claim_C5_update_mapping_authority
    (validate : Validator) (a : UpdateOracleMappingAccounts)
    (mappings : List Pubkey) (token : Nat) (h : token < mappings.length)
    (hauth : a.upgrade_authority_address ≠ some a.admin) :
    update_mapping validate a mappings token h =
      Except.error ScopeError.ConstraintViolation := by
  unfold update_mapping
  have hc : updateOracleMappingConstraintsOk a = false := by
    unfold updateOracleMappingConstraintsOk
    simp [hauth]
  rw [hc]
  simp

/-- Witness for C5: a caller whose key differs from the upgrade authority is
rejected. -/
theorem claim_C5_witness :
    update_mapping (fun _ => Except.ok ())
      { admin := 1, program_programdata_address := some 2, program_data_key := 2,
        upgrade_authority_address := some 99, pyth_price_info := 5 }
      [10, 20] 0 (by decide) = Except.error ScopeError.ConstraintViolation := by
  exact claim_C5_update_mapping_authority _ _ [10, 20] 0 (by decide) (by decide)

/-- C10: resubmitting the reference already installed at a slot succeeds with
no validation at all: the result is the same for every validator, including
the one that rejects every record (an unreadable or now-invalid record);
validation runs only on the path where the reference changes, where a failing
validator's error is surfaced. -/
theorem claim_C10_no_validation_on_equal
    (mappings : List Pubkey) (token : Nat) (r : Pubkey)
    (h : token < mappings.length) (heq : mappings.get ⟨token, h⟩ = r) :
    (∀ validate : Validator,
      process validate mappings token r h = Except.ok mappings) ∧
    (process (fun _ => Except.error ScopeError.PriceNotValid) mappings token r h =
      Except.ok mappings) ∧
    (∀ validate : Validator, ∀ r' : Pubkey, r' ≠ r → ∀ e,
      validate r' = Except.error e →
      process validate mappings token r' h = Except.error e) := by
  refine ⟨fun validate => ?_, ?_, fun validate r' hne e hv => ?_⟩
  · unfold process
    rw [if_pos heq.symm]
  · unfold process
    rw [if_pos heq.symm]
  · unfold process
    rw [if_neg (fun hx => hne (hx.trans heq)), hv]

/-- Witness for C10: the always-rejecting validator still accepts a
resubmission of the installed reference. -/
theorem claim_C10_witness :
    process (fun _ => Except.error ScopeError.UnexpectedAccount) [3, 4] 1 4
      (by decide) = Except.ok [3, 4] := by
  exact (claim_C10_no_validation_on_equal [3, 4] 1 4 (by decide) rfl).1 _

end Scope

namespace Scope

/-! ## Off-chain crank client (`off_chain/crank/src/scope_client.rs`) -/

/-- `MAX_REFRESH_CHUNK_SIZE = 28`: max number of refresh per transaction. -/
def MAX_REFRESH_CHUNK_SIZE : Nat := 28

/-- The crank client state read by the claims: the on-chain mapping account
address (`Pubkey::default()` = `0` until the program is initialized) and the
local mirror of the oracle mapping (`[Option<Pubkey>; MAX_ENTRIES]`,
embedded as a list; the constant `MAX_ENTRIES` is defined outside the
provided source files, so the capacity is the list's length). -/
structure ScopeClientState where
  oracle_mappings_acc : Pubkey
  oracle_mappings : List (Option Pubkey)
  deriving DecidableEq, Repr

/-- `upload_oracle_mapping`, under the claim's assumption that every issued
`update_mapping` ledger call is applied: for each slot, the local reference
(`unwrap_or_default()`: the zero sentinel when unset) replaces the remote
value whenever the two differ, one call per differing slot. Returns the
remote mapping after the sweep. -/
def upload_oracle_mapping (oracle_mappings : List (Option Pubkey))
    (onchain_mapping : List Pubkey) : List Pubkey :=
  List.zipWith
    (fun loc_mapping rem_mapping =>
      let loc_pk := loc_mapping.getD 0
      if rem_mapping ≠ loc_pk then loc_pk else rem_mapping)
    oracle_mappings onchain_mapping

/-- `download_oracle_mapping`: overwrite the local mirror from the ledger,
mapping the ledger's zero-pubkey sentinel back to local unset. -/
def download_oracle_mapping (onchain_mapping : List Pubkey) :
    List (Option Pubkey) :=
  onchain_mapping.map
    (fun rem_mapping => if rem_mapping = 0 then none else some rem_mapping)

/-- Counterexample to C8 as stated: a local mirror with a slot explicitly set
to the zero (sentinel) pubkey does not survive the round trip — upload sends
the zero key to the ledger and download reads zero back as unset, whatever
the prior remote value was. -/
theorem claim_C8_roundtrip_counterexample :
    download_oracle_mapping (upload_oracle_mapping [some 0] [5]) = [none] ∧
    [(none : Option Pubkey)] ≠ [some 0] := by
  exact ⟨rfl, by decide⟩

/-- C8 (amended): for every local mirror none of whose set slots holds the
zero sentinel pubkey, `upload_oracle_mapping` followed by
`download_oracle_mapping` restores the local mirror exactly, assuming each
issued ledger update is applied. -/
theorem claim_C8_upload_download_roundtrip
    (oracle_mappings : List (Option Pubkey)) (onchain_mapping : List Pubkey)
    (hlen : oracle_mappings.length = onchain_mapping.length)
    (hz : ∀ x ∈ oracle_mappings, x ≠ some 0) :
    download_oracle_mapping (upload_oracle_mapping oracle_mappings onchain_mapping) =
      oracle_mappings := by
  induction oracle_mappings generalizing onchain_mapping with
  | nil =>
    cases onchain_mapping with
    | nil => rfl
    | cons b bs => exact absurd hlen (by simp)
  | cons a as ih =>
    cases onchain_mapping with
    | nil => exact absurd hlen (by simp)
    | cons b bs =>
      unfold upload_oracle_mapping download_oracle_mapping
      rw [List.zipWith_cons_cons, List.map_cons]
      have htail : download_oracle_mapping (upload_oracle_mapping as bs) = as :=
        ih bs (by simpa using hlen) (fun x hx => hz x (List.mem_cons_of_mem a hx))
      unfold upload_oracle_mapping download_oracle_mapping at htail
      rw [htail]
      congr 1
      have ha : a ≠ some 0 := hz a (List.mem_cons_self a as)
      cases a with
      | none =>
        dsimp only [Option.getD]
        by_cases hb : b = 0
        · subst hb; simp
        · rw [if_pos hb]
          simp
      | some p =>
        have hp : p ≠ 0 := fun h0 => ha (by rw [h0])
        dsimp only [Option.getD]
        by_cases hb : b = p
        · subst hb; simp [hp]
        · rw [if_pos (fun hx => hb hx)]
          simp [hp]

/-- Witness for C8 (amended): a concrete mirror with a set slot and an unset
slot survives the round trip. -/
theorem claim_C8_witness :
    download_oracle_mapping (upload_oracle_mapping [some 5, none] [0, 7]) =
      [some 5, none] := by
  exact claim_C8_upload_download_roundtrip [some 5, none] [0, 7] (by decide)
    (by decide)

/-- The account-collection loop of `ix_refresh_price_list`: for each
requested token index in order, look up the local mapping slot; an
out-of-range index aborts the whole call with an error
(`.ok_or(anyhow!("Out of range token"))?`); an in-range unset slot
contributes the zero sentinel (`Pubkey::default()`) with only a log line; a
set slot contributes its reference. Returns the per-token account keys
attached to the submitted refresh call. -/
def ix_refresh_price_list_accounts (oracle_mappings : List (Option Pubkey)) :
    List Nat → Except String (List Pubkey)
  | [] => Except.ok []
  | token_idx :: rest =>
    match oracle_mappings.get? token_idx with
    | none => Except.error "Out of range token"
    | some oracle_pubkey_op =>
      let pk :=
        match oracle_pubkey_op with
        | some oracle_pubkey => oracle_pubkey
        | none => 0
      match ix_refresh_price_list_accounts oracle_mappings rest with
      | Except.error e => Except.error e
      | Except.ok pks => Except.ok (pk :: pks)

/-- Counterexample to C9 as stated: a token list holding an out-of-range slot
index is rejected outright with an error — the sentinel is not substituted
for it (here the store has one slot and index `1` is requested; the claim
would have the call proceed with the sentinel, i.e. succeed with `[0]`). -/
theorem claim_C9_sentinel_counterexample :
    ix_refresh_price_list_accounts [some 5] [1] =
      Except.error "Out of range token" ∧
    ix_refresh_price_list_accounts [some 5] [1] ≠ Except.ok [0] := by
  exact ⟨rfl, by decide⟩

/-- C9 (amended): the dynamic-list refresh path substitutes the sentinel
(default) reference only for requested slots that are in range but unset,
accepting the call with one account key per requested token; a list holding
any out-of-range index is rejected with an error rather than getting the
sentinel. -/
theorem claim_C9_sentinel_only_for_unset
    (oracle_mappings : List (Option Pubkey)) (tokens : List Nat) :
    ((∀ t ∈ tokens, t < oracle_mappings.length) →
      ix_refresh_price_list_accounts oracle_mappings tokens =
        Except.ok (tokens.map
          (fun t => ((oracle_mappings.get? t).getD none).getD 0))) ∧
    ((∃ t ∈ tokens, oracle_mappings.length ≤ t) →
      ∃ e, ix_refresh_price_list_accounts oracle_mappings tokens =
        Except.error e) := by
  induction tokens with
  | nil =>
    refine ⟨fun _ => rfl, fun hex => ?_⟩
    obtain ⟨t, ht, _⟩ := hex
    exact absurd ht (List.not_mem_nil t)
  | cons t ts ih =>
    constructor
    · intro hall
      have ht : t < oracle_mappings.length := hall t (List.mem_cons_self t ts)
      obtain ⟨x, hx⟩ : ∃ x, oracle_mappings.get? t = some x :=
        List.get?_eq_get ht ▸ ⟨_, rfl⟩
      have htail := ih.1 (fun u hu => hall u (List.mem_cons_of_mem t hu))
      unfold ix_refresh_price_list_accounts
      rw [hx, htail, List.map_cons, hx]
      cases x <;> rfl
    · intro hex
      by_cases hhead : oracle_mappings.length ≤ t
      · have hx : oracle_mappings.get? t = none := List.get?_eq_none.mpr hhead
        unfold ix_refresh_price_list_accounts
        rw [hx]
        exact ⟨_, rfl⟩
      · obtain ⟨u, hu, hule⟩ := hex
        have hut : u ∈ ts := by
          cases List.mem_cons.mp hu with
          | inl h => exact absurd (h ▸ hule) hhead
          | inr h => exact h
        obtain ⟨e, he⟩ := ih.2 ⟨u, hut, hule⟩
        have ht : t < oracle_mappings.length := Nat.lt_of_not_le hhead
        obtain ⟨x, hx⟩ : ∃ x, oracle_mappings.get? t = some x :=
          List.get?_eq_get ht ▸ ⟨_, rfl⟩
        unfold ix_refresh_price_list_accounts
        rw [hx, he]
        exact ⟨e, rfl⟩

/-- Witness for C9 (amended): an in-range request over a set slot and an
unset slot succeeds, with the sentinel in the unset position. -/
theorem claim_C9_witness :
    ix_refresh_price_list_accounts [some 7, none] [0, 1] =
      Except.ok [7, 0] := by
  exact ((claim_C9_sentinel_only_for_unset [some 7, none] [0, 1]).1
    (by decide)).trans (by decide)

end Scope
namespace Scope

/-- The index-collection pass of `refresh_all_prices`
(`.iter().enumerate().filter_map(...)`): ascending indices of the slots
whose local reference is set, `idx` being the index of the list's head. -/
def collectSetIdx : List (Option Pubkey) → Nat → List Nat
  | [], _ => []
  | none :: rest, idx => collectSetIdx rest (idx + 1)
  | some _ :: rest, idx => idx :: collectSetIdx rest (idx + 1)

/-- The slot indices `refresh_all_prices` refreshes: slots with a set local
reference, in ascending index order. -/
def toRefreshIdx (oracle_mappings : List (Option Pubkey)) : List Nat :=
  collectSetIdx oracle_mappings 0

/-- `slice::chunks(n)`: consecutive chunks of `n` elements, the last possibly
shorter. Rust panics on `n = 0`; the code only calls it with
`MAX_REFRESH_CHUNK_SIZE = 28`, and this embedding returns `[]` there. -/
def toChunks (n : Nat) (l : List α) : List (List α) :=
  match n, l with
  | _, [] => []
  | 0, _ :: _ => []
  | m + 1, x :: xs =>
    (x :: xs).take (m + 1) :: toChunks (m + 1) ((x :: xs).drop (m + 1))
termination_by l.length
decreasing_by simp [List.length_drop]; omega

/-- Helper: every element of `collectSetIdx ms idx` is at least `idx`. -/
theorem collectSetIdx_ge (ms : List (Option Pubkey)) (k : Nat) :
    ∀ i ∈ collectSetIdx ms k, k ≤ i := by
  induction ms generalizing k with
  | nil => intro i hi; exact absurd hi (List.not_mem_nil i)
  | cons a rest ih =>
    intro i hi
    cases a with
    | none =>
      rw [collectSetIdx] at hi
      exact Nat.le_of_succ_le (ih (k + 1) i hi)
    | some p =>
      rw [collectSetIdx] at hi
      cases List.mem_cons.mp hi with
      | inl h => exact h ▸ Nat.le_refl k
      | inr h => exact Nat.le_of_succ_le (ih (k + 1) i h)

/-- Helper: the collected indices are strictly ascending. -/
theorem collectSetIdx_pairwise (ms : List (Option Pubkey)) (k : Nat) :
    (collectSetIdx ms k).Pairwise (· < ·) := by
  induction ms generalizing k with
  | nil => exact List.Pairwise.nil
  | cons a rest ih =>
    cases a with
    | none => rw [collectSetIdx]; exact ih (k + 1)
    | some p =>
      rw [collectSetIdx]
      exact List.pairwise_cons.mpr
        ⟨fun i hi => Nat.lt_of_lt_of_le (Nat.lt_succ_self k)
          (collectSetIdx_ge rest (k + 1) i hi), ih (k + 1)⟩

/-- Helper: membership in the collected indices, relative to the offset. -/
theorem collectSetIdx_mem (ms : List (Option Pubkey)) (k i : Nat) :
    i ∈ collectSetIdx ms k ↔
      ∃ j p, ms.get? j = some (some p) ∧ i = k + j := by
  induction ms generalizing k with
  | nil => simp [collectSetIdx]
  | cons a rest ih =>
    cases a with
    | none =>
      rw [collectSetIdx, ih]
      constructor
      · rintro ⟨j, p, hj, hi⟩
        exact ⟨j + 1, p, by simpa using hj, by omega⟩
      · rintro ⟨j, p, hj, hi⟩
        cases j with
        | zero => simp at hj
        | succ j2 => exact ⟨j2, p, by simpa using hj, by omega⟩
    | some q =>
      rw [collectSetIdx, List.mem_cons, ih]
      constructor
      · rintro (h | ⟨j, p, hj, hi⟩)
        · exact ⟨0, q, rfl, by omega⟩
        · exact ⟨j + 1, p, by simpa using hj, by omega⟩
      · rintro ⟨j, p, hj, hi⟩
        cases j with
        | zero =>
          left
          simpa using hi
        | succ j2 => exact Or.inr ⟨j2, p, by simpa using hj, by omega⟩

/-- Helper: chunking loses and reorders nothing. -/
theorem toChunks_flatten (m : Nat) (l : List α) :
    (toChunks (m + 1) l).flatten = l := by
  cases l with
  | nil => rw [toChunks]; rfl
  | cons x xs =>
    rw [toChunks, List.flatten_cons, toChunks_flatten m ((x :: xs).drop (m + 1)),
      List.take_append_drop]
termination_by l.length
decreasing_by simp [List.length_drop]; omega

/-- Helper: chunking an `N`-element list into chunks of `m + 1` yields
exactly `⌈N / (m + 1)⌉ = (N + m) / (m + 1)` chunks. -/
theorem toChunks_length (m : Nat) (l : List α) :
    (toChunks (m + 1) l).length = (l.length + m) / (m + 1) := by
  cases l with
  | nil =>
    rw [toChunks, List.length_nil, List.length_nil]
    exact (Nat.div_eq_of_lt (by omega)).symm
  | cons x xs =>
    rw [toChunks, List.length_cons, toChunks_length m ((x :: xs).drop (m + 1)),
      List.length_drop, List.length_cons]
    have key : ∀ a : Nat, (a + (m + 1)) / (m + 1) = a / (m + 1) + 1 :=
      fun a => Nat.add_div_right a (by omega)
    by_cases hle : xs.length ≤ m
    · have e1 : xs.length + 1 - (m + 1) = 0 := by omega
      have e2 : xs.length + 1 + m = xs.length + (m + 1) := by omega
      rw [e1, e2, key]
      have e3 : (0 + m) / (m + 1) = 0 := Nat.div_eq_of_lt (by omega)
      have e4 : xs.length / (m + 1) = 0 := Nat.div_eq_of_lt (by omega)
      omega
    · have e1 : xs.length + 1 - (m + 1) + m = xs.length := by omega
      have e2 : xs.length + 1 + m = xs.length + (m + 1) := by omega
      rw [e1, e2, key]
termination_by l.length
decreasing_by simp [List.length_drop]; omega

/-- Helper: every chunk has at most `m + 1` elements. -/
theorem toChunks_mem_le (m : Nat) (l : List α) :
    ∀ c ∈ toChunks (m + 1) l, c.length ≤ m + 1 := by
  cases l with
  | nil =>
    intro c hc
    rw [toChunks] at hc
    exact absurd hc (List.not_mem_nil c)
  | cons x xs =>
    intro c hc
    rw [toChunks] at hc
    cases List.mem_cons.mp hc with
    | inl h => rw [h]; exact List.length_take_le (m + 1) (x :: xs)
    | inr h => exact toChunks_mem_le m ((x :: xs).drop (m + 1)) c h
termination_by l.length
decreasing_by simp [List.length_drop]; omega

/-- Whether a chunk submission succeeded (`true`) or returned an error that
the loop merely logs (`false`). -/
def submission_ok (r : Except String Unit) : Bool :=
  match r with
  | Except.ok _ => true
  | Except.error _ => false

/-- The chunk loop of `refresh_all_prices`: submit every chunk in order
through the given submission channel; a failing chunk is only logged
(recorded here as a `false` flag) and the loop proceeds to the next chunk.
Returns the trace of submitted chunks with their outcome. -/
def runRefreshLoop (submit : List Nat → Except String Unit) :
    List (List Nat) → List (List Nat × Bool)
  | [] => []
  | chunk :: rest =>
    match submit chunk with
    | Except.ok _ => (chunk, true) :: runRefreshLoop submit rest
    | Except.error _ => (chunk, false) :: runRefreshLoop submit rest

/-- `refresh_all_prices`: bail out if the program is uninitialized (zero
mapping account); otherwise chunk the set-slot indices into groups of at most
`MAX_REFRESH_CHUNK_SIZE` and submit each, tolerating chunk failures; the call
itself always returns `Ok`. -/
def refresh_all_prices (submit : List Nat → Except String Unit)
    (st : ScopeClientState) : Except String (List (List Nat × Bool)) :=
  if st.oracle_mappings_acc = 0 then
    Except.error "Program is not initialized"
  else
    Except.ok (runRefreshLoop submit
      (toChunks MAX_REFRESH_CHUNK_SIZE (toRefreshIdx st.oracle_mappings)))

/-- Helper: the loop submits every chunk in order, whatever the outcomes. -/
theorem map_fst_runRefreshLoop (submit : List Nat → Except String Unit)
    (cs : List (List Nat)) :
    (runRefreshLoop submit cs).map Prod.fst = cs := by
  induction cs with
  | nil => rfl
  | cons c rest ih =>
    cases hsc : submit c <;> simp [runRefreshLoop, hsc, ih]

/-- Helper: the loop submits every chunk, each outcome depending only on its
own submission. -/
theorem runRefreshLoop_eq_map (submit : List Nat → Except String Unit)
    (cs : List (List Nat)) :
    runRefreshLoop submit cs =
      cs.map (fun chunk => (chunk, submission_ok (submit chunk))) := by
  induction cs with
  | nil => rfl
  | cons c rest ih =>
    cases hsc : submit c <;> simp [runRefreshLoop, submission_ok, hsc, ih]

/-- C6: on an initialized client (capacity at most 256, the domain of the
`u8` slot indices), `refresh_all_prices` succeeds and submits exactly the
chunking of the ascending list of set-slot indices: `⌈N/28⌉` dynamic-list
calls of at most 28 slots each, whose concatenation is exactly that
duplicate-free ascending list, which in turn holds exactly the indices whose
local reference is set. -/
theorem claim_C6_refresh_all_chunking
    (st : ScopeClientState) (submit : List Nat → Except String Unit)
    (hinit : st.oracle_mappings_acc ≠ 0)
    (_hcap : st.oracle_mappings.length ≤ 256) :
    ∃ trace,
      refresh_all_prices submit st = Except.ok trace ∧
      trace.map Prod.fst =
        toChunks MAX_REFRESH_CHUNK_SIZE (toRefreshIdx st.oracle_mappings) ∧
      (toChunks MAX_REFRESH_CHUNK_SIZE (toRefreshIdx st.oracle_mappings)).length =
        ((toRefreshIdx st.oracle_mappings).length + 27) / 28 ∧
      (∀ c ∈ toChunks MAX_REFRESH_CHUNK_SIZE (toRefreshIdx st.oracle_mappings),
        c.length ≤ 28) ∧
      (toChunks MAX_REFRESH_CHUNK_SIZE (toRefreshIdx st.oracle_mappings)).flatten =
        toRefreshIdx st.oracle_mappings ∧
      (toRefreshIdx st.oracle_mappings).Pairwise (· < ·) ∧
      (toRefreshIdx st.oracle_mappings).Nodup ∧
      (∀ i, i ∈ toRefreshIdx st.oracle_mappings ↔
        ∃ p, st.oracle_mappings.get? i = some (some p)) := by
  refine ⟨runRefreshLoop submit
    (toChunks MAX_REFRESH_CHUNK_SIZE (toRefreshIdx st.oracle_mappings)),
    ?_, ?_, ?_, ?_, ?_, ?_, ?_, ?_⟩
  · unfold refresh_all_prices
    rw [if_neg hinit]
  · exact map_fst_runRefreshLoop submit _
  · exact toChunks_length 27 _
  · exact toChunks_mem_le 27 _
  · exact toChunks_flatten 27 _
  · exact collectSetIdx_pairwise _ 0
  · exact (collectSetIdx_pairwise _ 0).imp (fun h => Nat.ne_of_lt h)
  · intro i
    rw [toRefreshIdx, collectSetIdx_mem]
    constructor
    · rintro ⟨j, p, hj, hi⟩
      refine ⟨p, ?_⟩
      have : i = j := by omega
      rwa [this]
    · rintro ⟨p, hp⟩
      exact ⟨i, p, hp, by omega⟩

/-- Witness for C6: the claim applied to a concrete three-slot mirror with
two set slots, under the always-succeeding submission channel. -/
theorem claim_C6_witness :
    ∃ trace,
      refresh_all_prices (fun _ => (Except.ok () : Except String Unit))
          { oracle_mappings_acc := 1,
            oracle_mappings := [some 5, none, some 6] } =
        Except.ok trace ∧
      trace.map Prod.fst =
        toChunks MAX_REFRESH_CHUNK_SIZE (toRefreshIdx [some 5, none, some 6]) := by
  obtain ⟨tr, h1, h2, _⟩ := claim_C6_refresh_all_chunking
    { oracle_mappings_acc := 1, oracle_mappings := [some 5, none, some 6] }
    (fun _ => (Except.ok () : Except String Unit)) (by decide) (by decide)
  exact ⟨tr, h1, h2⟩

/-- C7: on an initialized client, `refresh_all_prices` returns overall
success for every submission channel: each chunk's outcome is a function of
its own submission only, a failing chunk is merely flagged, all chunks are
still submitted in order, and no failure aborts the call or propagates as an
error. -/
theorem claim_C7_chunk_isolation
    (st : ScopeClientState) (submit : List Nat → Except String Unit)
    (hinit : st.oracle_mappings_acc ≠ 0) :
    refresh_all_prices submit st =
      Except.ok
        ((toChunks MAX_REFRESH_CHUNK_SIZE (toRefreshIdx st.oracle_mappings)).map
          (fun chunk => (chunk, submission_ok (submit chunk)))) := by
  unfold refresh_all_prices
  rw [if_neg hinit, runRefreshLoop_eq_map]

/-- Witness for C7: with a channel that fails every submission, the call
still returns overall success and every chunk is submitted (all flagged as
failed). -/
theorem claim_C7_witness :
    refresh_all_prices (fun _ => (Except.error "submission failed" : Except String Unit))
        { oracle_mappings_acc := 1,
          oracle_mappings := [some 5, none, some 6] } =
      Except.ok
        ((toChunks MAX_REFRESH_CHUNK_SIZE (toRefreshIdx [some 5, none, some 6])).map
          (fun chunk => (chunk, false))) := by
  exact claim_C7_chunk_isolation _ _ (by decide)

end Scope
